import Mathlib

/-!
Verification of the IMIN sports-coordinator repository.

The definitions below are a shallow embedding of the program:

* the team balancer of ios/ImIn/ImIn/Views/TeamSplitView.swift
  (teamTotal, performSplit and the min-by-comparator team choice);
* the default team-count derivation of
  ios/ImIn/ImIn/Views/GameDashboardView.swift (extractPlayersPerTeam)
  combined with the onAppear computation of TeamSplitView.swift;
* the backend route handlers of backend/routes/games.js (sqlite variant):
  updateGameStatus, the join handler and the skill-update handler.

Machine integers of the source are modelled as Nat / Int (no overflow is
relevant at the sizes involved); the random shuffle of the roster is
modelled by quantifying over an arbitrary permutation of the input.
-/

namespace IMIN

open scoped List

/-- Models/Player.swift: id, name, optional phone, optional timestamp,
optional skill level. -/
structure Player where
  id : String
  name : String
  phone : Option String
  timestamp : Option String
  skillLevel : Option Int
  deriving DecidableEq, Repr

/-- The effective skill used throughout TeamSplitView.swift: the Swift
expression p.skillLevel ?? 3. -/
def effSkill (p : Player) : Int :=
  p.skillLevel.getD 3

/-- TeamSplitView.teamTotal: team.reduce(0) with running sum of
skillLevel ?? 3. -/
def teamTotal (team : List Player) : Int :=
  team.foldl (fun acc p => acc + effSkill p) 0

/-- The comparator closure passed to min(by:) in performSplit: on equal
totals compare member counts, otherwise compare totals. -/
def betterTeam (t1 t2 : Nat × List Player) : Bool :=
  let total1 := teamTotal t1.2
  let total2 := teamTotal t2.2
  if total1 = total2 then decide (t1.2.length < t2.2.length)
  else decide (total1 < total2)

/-- Swift Sequence.min(by:): keep the first element, replace the running
minimum only when a later element is strictly smaller under the
comparator (so the first minimal element wins). -/
def seqMin {α : Type} (lt : α → α → Bool) : List α → Option α
  | [] => none
  | x :: xs => some (xs.foldl (fun r e => if lt e r then e else r) x)

/-- performSplit's team choice: newTeams.enumerated().min(by:)?.offset
?? 0. -/
def chooseTeamIndex (teams : List (List Player)) : Nat :=
  match seqMin betterTeam teams.enum with
  | some it => it.1
  | none => 0

/-- One iteration of performSplit's assignment loop:
newTeams[teamIndex].append(player). -/
def assignOne (ts : List (List Player)) (p : Player) : List (List Player) :=
  let i := chooseTeamIndex ts
  ts.set i (ts.getD i [] ++ [p])

/-- performSplit's sort step: Swift's stable sort with the comparator
(skillLevel ?? 3) descending, embedded as a stable merge sort whose
keep-left relation is the negation of the flipped strict comparator. -/
def sortBySkillDesc (ps : List Player) : List Player :=
  ps.mergeSort (fun a b => !(decide (effSkill a < effSkill b)))

/-- TeamSplitView.performSplit, parameterized by the already-shuffled
player list (the source first applies players.shuffled(); theorems
quantify over any permutation of the roster in its place). -/
def performSplit (shuffledPlayers : List Player) (numberOfTeams : Nat) : List (List Player) :=
  (sortBySkillDesc shuffledPlayers).foldl assignOne (List.replicate numberOfTeams [])

/-! ## Status deriver (backend/routes/games.js updateGameStatus) -/

/-- The pure content of updateGameStatus in both backend variants:
a locked game is returned unchanged, otherwise the status is recomputed
as full when the joined count has reached capacity and open otherwise.
Note the source checks only for the locked status. -/
def deriveStatus (currentStatus : String) (joinedCount : Nat) (capacity : Nat) : String :=
  if currentStatus = "locked" then currentStatus
  else if capacity ≤ joinedCount then "full" else "open"

/-! ## Backend state and route handlers (backend/routes/games.js, sqlite variant) -/

/-- A row of the games table, restricted to the columns the verified
handlers read or write (id is kept as the association key). -/
structure GameRec where
  sport : String
  maxPlayers : Nat
  status : String
  deriving DecidableEq, Repr

/-- A row of the players table. -/
structure PlayerRec where
  id : String
  name : String
  phone : String
  deriving DecidableEq, Repr

/-- A row of the joins table. -/
structure JoinRec where
  gameId : String
  playerId : String
  timestamp : String
  skillLevel : Option Int
  deriving DecidableEq, Repr

/-- The backend database: games keyed by id, plus the players and joins
tables. -/
structure DB where
  games : List (String × GameRec)
  players : List PlayerRec
  joins : List JoinRec
  deriving DecidableEq, Repr

/-- stmts.getGame: SELECT * FROM games WHERE id = ?. -/
def getGame (db : DB) (gameId : String) : Option GameRec :=
  (db.games.find? (fun g => g.1 = gameId)).map (fun g => g.2)

/-- stmts.getPlayerCount: SELECT COUNT(*) FROM joins WHERE gameId = ?. -/
def getPlayerCount (db : DB) (gameId : String) : Nat :=
  (db.joins.filter (fun j => j.gameId = gameId)).length

/-- stmts.phoneInGame: whether some join of the game belongs to a player
with the given phone. -/
def phoneInGame (db : DB) (gameId : String) (phone : String) : Bool :=
  db.joins.any (fun j =>
    j.gameId = gameId &&
    db.players.any (fun p => p.id = j.playerId && p.phone = phone))

/-- stmts.updateGameStatus: UPDATE games SET status = ? WHERE id = ?. -/
def setGameStatus (db : DB) (gameId : String) (st : String) : DB :=
  { db with games := db.games.map (fun g =>
      if g.1 = gameId then (g.1, { g.2 with status := st }) else g) }

/-- updateGameStatus of routes/games.js: no-op on a missing or locked
game, otherwise recompute full/open from the joined count. -/
def updateGameStatus (db : DB) (gameId : String) : DB :=
  match getGame db gameId with
  | none => db
  | some game =>
    if game.status = "locked" then db
    else setGameStatus db gameId
      (if game.maxPlayers ≤ getPlayerCount db gameId then "full" else "open")

/-- JS String.prototype.trim: strip leading and trailing whitespace,
modelled directly on the character list (Lean's builtin String.trim is
not kernel-reducible, so the embedding recomputes it structurally). -/
def jsTrim (s : String) : String :=
  String.mk (((s.data.dropWhile Char.isWhitespace).reverse.dropWhile
    Char.isWhitespace).reverse)

/-- JS String.prototype.replace of all non-digits, then .length: the
number of decimal digits in the string. -/
def digitCount (s : String) : Nat :=
  (s.toList.filter Char.isDigit).length

/-- The error responses of the POST /games/:id/join handler, in the
order the source checks them. -/
inductive JoinError
  | nameRequired
  | phoneRequired
  | phoneNotTenDigits
  | notFound
  | locked
  | duplicateContact
  | full
  deriving DecidableEq, Repr

/-- The insertPlayer and insertJoin statements of the join transaction:
a fresh player row with the trimmed name and phone, and a join row with
null skill level. -/
def insertPlayerAndJoin (db : DB) (gameId name phone newPlayerId now : String) : DB :=
  { db with
    players := db.players ++ [⟨newPlayerId, jsTrim name, jsTrim phone⟩],
    joins := db.joins ++ [⟨gameId, newPlayerId, now, none⟩] }

/-- POST /games/:id/join (sqlite variant): validation checks in source
order, then insertPlayer, insertJoin (null skill) and updateGameStatus
inside one transaction.  An error response performs no mutation, so the
result carries a new database only on success. -/
def joinGame (db : DB) (gameId : String) (name : String) (phone : String)
    (newPlayerId : String) (now : String) : Except JoinError DB :=
  if jsTrim name = "" then .error .nameRequired
  else if jsTrim phone = "" then .error .phoneRequired
  else if digitCount phone ≠ 10 then .error .phoneNotTenDigits
  else
    match getGame db gameId with
    | none => .error .notFound
    | some game =>
      if game.status = "locked" then .error .locked
      else if phoneInGame db gameId (jsTrim phone) then .error .duplicateContact
      else if game.maxPlayers ≤ getPlayerCount db gameId then .error .full
      else
        .ok (updateGameStatus
          (insertPlayerAndJoin db gameId name phone newPlayerId now) gameId)

/-- The database after a join request: the handler mutates nothing on an
error response. -/
def joinResultState (db : DB) (gameId : String) (name : String) (phone : String)
    (newPlayerId : String) (now : String) : DB :=
  match joinGame db gameId name phone newPlayerId now with
  | .ok db1 => db1
  | .error _ => db

/-- stmts.getJoin: SELECT * FROM joins WHERE gameId = ? AND playerId = ?. -/
def getJoin (db : DB) (gameId : String) (playerId : String) : Option JoinRec :=
  db.joins.find? (fun j => j.gameId = gameId && j.playerId = playerId)

/-- stmts.updateSkillLevel: UPDATE joins SET skillLevel = ? WHERE
gameId = ? AND playerId = ?. -/
def setSkillLevel (db : DB) (gameId : String) (playerId : String)
    (skillLevel : Option Int) : DB :=
  { db with joins := db.joins.map (fun j =>
      if j.gameId = gameId && j.playerId = playerId then
        { j with skillLevel := skillLevel }
      else j) }

/-- The error responses of PATCH /games/:id/players/:playerId. -/
inductive SkillError
  | notFound
  | invalidRange
  deriving DecidableEq, Repr

/-- PATCH /games/:id/players/:playerId (sqlite variant): 404 on missing
game or missing join, then accept null or a value in 1..5 and store it,
otherwise reject with the range error.  The request value is modelled as
Option Int, none standing for JSON null. -/
def updateSkill (db : DB) (gameId : String) (playerId : String)
    (skillLevel : Option Int) : Except SkillError DB :=
  match getGame db gameId with
  | none => .error .notFound
  | some _ =>
    match getJoin db gameId playerId with
    | none => .error .notFound
    | some _ =>
      match skillLevel with
      | none => .ok (setSkillLevel db gameId playerId none)
      | some v =>
        if 1 ≤ v ∧ v ≤ 5 then .ok (setSkillLevel db gameId playerId (some v))
        else .error .invalidRange

/-! ## Default team-count derivation
(GameDashboardView.extractPlayersPerTeam and TeamSplitView.onAppear) -/

/-- Decimal value of a digit run. -/
def digitsToNat (ds : List Char) : Nat :=
  ds.foldl (fun n c => 10 * n + (c.toNat - '0'.toNat)) 0

/-- One attempted match of the regular expression pattern of digits,
a case-insensitive letter v, and digits, anchored at the head of the
character list; the greedy first capture group is the maximal leading
digit run. -/
def matchNvNAt (cs : List Char) : Option Nat :=
  let ds := cs.takeWhile Char.isDigit
  if ds.isEmpty then none
  else
    match cs.drop ds.length with
    | c :: c2 :: _ =>
      if (c = 'v' || c = 'V') && c2.isDigit then some (digitsToNat ds) else none
    | _ => none

/-- NSRegularExpression.firstMatch for the NvN pattern: the leftmost
position at which the pattern matches, returning its first capture
group as a number. -/
def firstNvN : List Char → Option Nat
  | [] => none
  | c :: rest =>
    match matchNvNAt (c :: rest) with
    | some n => some n
    | none => firstNvN rest

/-- The descending preference list of common team sizes in
extractPlayersPerTeam. -/
def commonTeamSizes : List Nat := [11, 7, 6, 5, 4, 3]

/-- GameDashboardView.extractPlayersPerTeam: the NvN number from the
sport label if the pattern matches, else the first common team size that
divides maxPlayers into at least 2 teams, else max(2, maxPlayers / 2). -/
def extractPlayersPerTeam (sport : String) (maxPlayers : Nat) : Nat :=
  match firstNvN sport.toList with
  | some n => n
  | none =>
    match commonTeamSizes.find? (fun size =>
        maxPlayers % size = 0 && 2 ≤ maxPlayers / size) with
    | some size => size
    | none => max 2 (maxPlayers / 2)

/-- TeamSplitView.onAppear: numberOfTeams starts at 2 and becomes
max(2, players.count / initialPlayersPerTeam) when the players-per-team
value passed from the dashboard is positive. -/
def defaultTeamCount (sport : String) (maxPlayers : Nat) (playerCount : Nat) : Nat :=
  let perTeam := extractPlayersPerTeam sport maxPlayers
  if 0 < perTeam then max 2 (playerCount / perTeam) else 2

/-! ## Helper lemmas about the balancer's team choice -/

/-- The strict lexicographic order (total skill, member count, index)
that the min(by:) call of performSplit realizes over enumerated teams. -/
def teamKeyLt (a b : Nat × List Player) : Prop :=
  teamTotal a.2 < teamTotal b.2 ∨
    (teamTotal a.2 = teamTotal b.2 ∧
      (a.2.length < b.2.length ∨ (a.2.length = b.2.length ∧ a.1 < b.1)))

theorem teamKeyLt_trans {a b c : Nat × List Player}
    (h1 : teamKeyLt a b) (h2 : teamKeyLt b c) : teamKeyLt a c := by
  unfold teamKeyLt at *
  rcases h1 with h1 | ⟨e1, h1⟩ <;> rcases h2 with h2 | ⟨e2, h2⟩
  · exact Or.inl (lt_trans h1 h2)
  · exact Or.inl (e2 ▸ h1)
  · exact Or.inl (e1 ▸ h2)
  · refine Or.inr ⟨e1.trans e2, ?_⟩
    rcases h1 with h1 | ⟨f1, h1⟩ <;> rcases h2 with h2 | ⟨f2, h2⟩
    · exact Or.inl (lt_trans h1 h2)
    · exact Or.inl (f2 ▸ h1)
    · exact Or.inl (f1 ▸ h2)
    · exact Or.inr ⟨f1.trans f2, lt_trans h1 h2⟩

theorem betterTeam_eq_true_iff {a b : Nat × List Player} :
    betterTeam a b = true ↔
      (teamTotal a.2 < teamTotal b.2 ∨
        (teamTotal a.2 = teamTotal b.2 ∧ a.2.length < b.2.length)) := by
  by_cases h : teamTotal a.2 = teamTotal b.2
  · simp [betterTeam, h]
  · simp [betterTeam, h]

theorem teamKeyLt_of_betterTeam {a b : Nat × List Player}
    (h : betterTeam a b = true) : teamKeyLt a b := by
  rcases betterTeam_eq_true_iff.mp h with h | ⟨e, h⟩
  · exact Or.inl h
  · exact Or.inr ⟨e, Or.inl h⟩

theorem teamKeyLt_of_not_betterTeam {a b : Nat × List Player}
    (h : betterTeam b a = false) (hidx : a.1 < b.1) : teamKeyLt a b := by
  have h2 : ¬(teamTotal b.2 < teamTotal a.2 ∨
      (teamTotal b.2 = teamTotal a.2 ∧ b.2.length < a.2.length)) := by
    intro hc
    rw [betterTeam_eq_true_iff.mpr hc] at h
    cases h
  push_neg at h2
  rcases lt_or_eq_of_le h2.1 with ht | ht
  · exact Or.inl ht
  · refine Or.inr ⟨ht, ?_⟩
    have hc := h2.2 ht.symm
    rcases lt_or_eq_of_le hc with hl | hl
    · exact Or.inl hl
    · exact Or.inr ⟨hl, hidx⟩

/-- The running-minimum fold of Swift's min(by:) computes the first
element that is minimal for the lexicographic key, provided the indices
are strictly increasing along the list. -/
theorem seqMin_fold_spec (x : Nat × List Player) (xs : List (Nat × List Player))
    (hx : ∀ p ∈ xs, x.1 < p.1)
    (hxs : xs.Pairwise (fun a b => a.1 < b.1)) :
    (xs.foldl (fun r e => if betterTeam e r then e else r) x = x ∨
      xs.foldl (fun r e => if betterTeam e r then e else r) x ∈ xs) ∧
    ∀ p, (p = x ∨ p ∈ xs) →
      p.1 ≠ (xs.foldl (fun r e => if betterTeam e r then e else r) x).1 →
      teamKeyLt (xs.foldl (fun r e => if betterTeam e r then e else r) x) p := by
  induction xs generalizing x with
  | nil =>
    refine ⟨Or.inl rfl, ?_⟩
    rintro p (rfl | hp) hne
    · exact absurd rfl hne
    · exact absurd hp (List.not_mem_nil p)
  | cons e rest ih =>
    have hex : x.1 < e.1 := hx e (List.mem_cons_self e rest)
    have herest : ∀ p ∈ rest, e.1 < p.1 :=
      fun p hp => (List.pairwise_cons.mp hxs).1 p hp
    have hxrest : ∀ p ∈ rest, (if betterTeam e x then e else x).1 < p.1 := by
      intro p hp
      split
      · exact herest p hp
      · exact hx p (List.mem_cons_of_mem e hp)
    have hrest : rest.Pairwise (fun a b => a.1 < b.1) :=
      (List.pairwise_cons.mp hxs).2
    obtain ⟨ihmem, ihmin⟩ := ih (if betterTeam e x then e else x) hxrest hrest
    simp only [List.foldl_cons]
    set x1 := if betterTeam e x then e else x with hx1
    set r := rest.foldl (fun r e => if betterTeam e r then e else r) x1 with hr
    have hmem : r = x ∨ r ∈ e :: rest := by
      rcases ihmem with h | h
      · rw [h, hx1]
        split
        · exact Or.inr (List.mem_cons_self e rest)
        · exact Or.inl rfl
      · exact Or.inr (List.mem_cons_of_mem e h)
    refine ⟨hmem, ?_⟩
    -- the element of {x, e} that the first comparison discarded
    have hdrop : ∀ p, p = x ∨ p = e → p.1 ≠ r.1 → teamKeyLt r p := by
      intro p hp hne
      by_cases hbt : betterTeam e x = true
      · have hx1e : x1 = e := by rw [hx1, if_pos hbt]
        have hkey : teamKeyLt e x := teamKeyLt_of_betterTeam hbt
        have hrltOrEq : r = e ∨ teamKeyLt r e := by
          rcases ihmem with hre | hrm
          · exact Or.inl (hre.trans hx1e)
          · refine Or.inr (ihmin e (Or.inl hx1e.symm) ?_)
            have h1 := herest r hrm
            omega
        rcases hp with rfl | rfl
        · -- p is the old running value x
          rcases hrltOrEq with hre | hlt
          · rw [hre]; exact hkey
          · exact teamKeyLt_trans hlt hkey
        · -- p is the new element e
          rcases hrltOrEq with hre | hlt
          · exact absurd (congrArg Prod.fst hre).symm hne
          · exact hlt
      · have hbt2 : betterTeam e x = false := Bool.eq_false_iff.mpr hbt
        have hx1x : x1 = x := by rw [hx1, if_neg hbt]
        have hkey : teamKeyLt x e := teamKeyLt_of_not_betterTeam hbt2 hex
        have hrltOrEq : r = x ∨ teamKeyLt r x := by
          rcases ihmem with hre | hrm
          · exact Or.inl (hre.trans hx1x)
          · refine Or.inr (ihmin x (Or.inl hx1x.symm) ?_)
            have h1 := hxrest r hrm
            rw [hx1x] at h1
            omega
        rcases hp with rfl | rfl
        · -- p is the old running value x
          rcases hrltOrEq with hre | hlt
          · exact absurd (congrArg Prod.fst hre).symm hne
          · exact hlt
        · -- p is the new element e
          rcases hrltOrEq with hre | hlt
          · rw [hre]; exact hkey
          · exact teamKeyLt_trans hlt hkey
    rintro p (rfl | hp) hne
    · exact hdrop p (Or.inl rfl) hne
    · rcases List.mem_cons.mp hp with rfl | hp2
      · exact hdrop p (Or.inr rfl) hne
      · exact ihmin p (Or.inr hp2) hne

theorem pairwise_fst_lt_enumFrom {α : Type} (n : Nat) (l : List α) :
    (l.enumFrom n).Pairwise (fun a b => a.1 < b.1) := by
  induction l generalizing n with
  | nil => exact List.Pairwise.nil
  | cons x xs ih =>
    rw [List.enumFrom_cons]
    refine List.Pairwise.cons ?_ (ih (n + 1))
    intro p hp
    have h1 := List.le_fst_of_mem_enumFrom hp
    omega

/-- The team index chosen in performSplit's loop is in range, and the
chosen team is the strict lexicographic minimum for (total, member
count, index) among all current teams. -/
theorem chooseTeamIndex_spec (ts : List (List Player)) (h : ts ≠ []) :
    chooseTeamIndex ts < ts.length ∧
      ∀ j, j < ts.length → j ≠ chooseTeamIndex ts →
        teamKeyLt (chooseTeamIndex ts, ts.getD (chooseTeamIndex ts) [])
          (j, ts.getD j []) := by
  match ts, h with
  | t0 :: ts', _ =>
    have hx : ∀ p ∈ ts'.enumFrom 1, (0, t0).1 < p.1 := by
      intro p hp
      have h1 := List.le_fst_of_mem_enumFrom hp
      simpa using lt_of_lt_of_le Nat.zero_lt_one h1
    obtain ⟨hmem, hmin⟩ :=
      seqMin_fold_spec (0, t0) (ts'.enumFrom 1) hx (pairwise_fst_lt_enumFrom 1 ts')
    have hchoose : chooseTeamIndex (t0 :: ts') =
        ((ts'.enumFrom 1).foldl (fun r e => if betterTeam e r then e else r) (0, t0)).1 := rfl
    set r := (ts'.enumFrom 1).foldl (fun r e => if betterTeam e r then e else r) (0, t0)
      with hrdef
    have hrenum : r ∈ (t0 :: ts').enum := by
      rcases hmem with h1 | h1
      · rw [h1]; exact List.mem_cons_self _ _
      · exact List.mem_cons_of_mem _ h1
    have hget : (t0 :: ts')[r.1]? = some r.2 := List.mem_enum_iff_getElem?.mp hrenum
    obtain ⟨hlt, hgetel⟩ := List.getElem?_eq_some_iff.mp hget
    have hgetD : (t0 :: ts').getD r.1 [] = r.2 := by
      rw [List.getD_eq_getElem?_getD, hget]
      rfl
    constructor
    · rw [hchoose]; exact hlt
    · intro j hj hne
      have hjenum : (j, (t0 :: ts').getD j []) ∈ (t0 :: ts').enum := by
        refine List.mem_enum_iff_getElem?.mpr ?_
        simp only [List.getD_eq_getElem?_getD, List.getElem?_eq_getElem hj]
        rfl
      have hjcase : (j, (t0 :: ts').getD j []) = (0, t0) ∨
          (j, (t0 :: ts').getD j []) ∈ ts'.enumFrom 1 := List.mem_cons.mp hjenum
      have hkey := hmin (j, (t0 :: ts').getD j []) hjcase (by
        simpa using fun hc => hne (by rw [hchoose]; exact hc))
      have hrpair : (chooseTeamIndex (t0 :: ts'), (t0 :: ts').getD (chooseTeamIndex (t0 :: ts')) []) = r := by
        rw [hchoose, hgetD]
      rw [hrpair]
      exact hkey

/-! ## The assignment loop preserves the roster -/

theorem flatten_set_append {α : Type} (ts : List (List α)) (i : Nat) (p : α)
    (h : i < ts.length) :
    (ts.set i (ts.getD i [] ++ [p])).flatten ~ p :: ts.flatten := by
  induction ts generalizing i with
  | nil => simp at h
  | cons t ts ih =>
    cases i with
    | zero =>
      simp only [List.set_cons_zero, List.getD_cons_zero, List.flatten_cons]
      rw [List.append_assoc]
      exact List.perm_middle
    | succ i =>
      simp only [List.set_cons_succ, List.getD_cons_succ, List.flatten_cons]
      have hperm := ih i (by simpa using h)
      calc t ++ (ts.set i (ts.getD i [] ++ [p])).flatten
          ~ t ++ (p :: ts.flatten) := List.Perm.append_left t hperm
        _ ~ p :: (t ++ ts.flatten) := List.perm_middle

theorem assignOne_length (ts : List (List Player)) (p : Player) :
    (assignOne ts p).length = ts.length := by
  unfold assignOne
  simp

theorem assignOne_ne_nil (ts : List (List Player)) (p : Player) (h : ts ≠ []) :
    assignOne ts p ≠ [] := by
  intro hc
  have h1 := assignOne_length ts p
  rw [hc] at h1
  exact h (List.eq_nil_of_length_eq_zero h1.symm)

theorem assignOne_flatten_perm (ts : List (List Player)) (p : Player) (h : ts ≠ []) :
    (assignOne ts p).flatten ~ p :: ts.flatten := by
  unfold assignOne
  exact flatten_set_append ts (chooseTeamIndex ts) p (chooseTeamIndex_spec ts h).1

theorem foldl_assignOne_length (ps : List Player) (ts : List (List Player)) :
    (ps.foldl assignOne ts).length = ts.length := by
  induction ps generalizing ts with
  | nil => rfl
  | cons p ps ih => rw [List.foldl_cons, ih, assignOne_length]

theorem foldl_assignOne_flatten_perm (ps : List Player) (ts : List (List Player))
    (h : ts ≠ []) :
    (ps.foldl assignOne ts).flatten ~ ps ++ ts.flatten := by
  induction ps generalizing ts with
  | nil => simp
  | cons p ps ih =>
    simp only [List.foldl_cons, List.cons_append]
    calc (ps.foldl assignOne (assignOne ts p)).flatten
        ~ ps ++ (assignOne ts p).flatten := ih (assignOne ts p) (assignOne_ne_nil ts p h)
      _ ~ ps ++ (p :: ts.flatten) :=
          List.Perm.append_left ps (assignOne_flatten_perm ts p h)
      _ ~ p :: (ps ++ ts.flatten) := List.perm_middle

theorem flatten_replicate_nil {α : Type} (k : Nat) :
    (List.replicate k ([] : List α)).flatten = [] := by
  induction k with
  | zero => rfl
  | succ k ih => simp [List.replicate_succ, ih]

theorem replicate_nil_ne_nil {α : Type} (k : Nat) (hk : 0 < k) :
    List.replicate k ([] : List α) ≠ [] := by
  intro hc
  have h1 := congrArg List.length hc
  simp at h1
  omega

theorem performSplit_length (shuffled : List Player) (k : Nat) :
    (performSplit shuffled k).length = k := by
  unfold performSplit
  rw [foldl_assignOne_length]
  simp

theorem performSplit_flatten_perm (shuffled : List Player) (k : Nat) (hk : 0 < k) :
    (performSplit shuffled k).flatten ~ shuffled := by
  unfold performSplit
  have h1 := foldl_assignOne_flatten_perm (sortBySkillDesc shuffled)
    (List.replicate k []) (replicate_nil_ne_nil k hk)
  rw [flatten_replicate_nil, List.append_nil] at h1
  exact h1.trans (List.mergeSort_perm shuffled _)

/-! ## Claim C1 -/

/-- C1: for every roster and every team count k at least 2, performSplit
returns exactly k teams and the concatenation of the teams is a
permutation of the input roster: every input player occurs in the output
exactly once and nothing else occurs.  The random pre-shuffle is
quantified as an arbitrary permutation of the roster. -/
theorem performSplit_partitions_roster (players shuffled : List Player) (k : Nat)
    (hshuffle : shuffled ~ players) (hk : 2 ≤ k) :
    (performSplit shuffled k).length = k ∧
      (performSplit shuffled k).flatten ~ players :=
  ⟨performSplit_length shuffled k,
    (performSplit_flatten_perm shuffled k (by omega)).trans hshuffle⟩

/-- Sample players used to instantiate the balancer theorems. -/
def samplePlayer (i : Nat) (s : Option Int) : Player :=
  { id := toString i, name := toString i, phone := none, timestamp := none,
    skillLevel := s }

/-- Sample roster with mixed skill levels. -/
def sampleRoster : List Player :=
  [samplePlayer 1 (some 5), samplePlayer 2 (some 4), samplePlayer 3 none,
   samplePlayer 4 (some 2)]

theorem performSplit_partitions_roster_witness :
    (performSplit sampleRoster 2).length = 2 ∧
      (performSplit sampleRoster 2).flatten ~ sampleRoster :=
  performSplit_partitions_roster sampleRoster sampleRoster 2 (List.Perm.refl _)
    (by decide)

/-! ## Claim C2 -/

/-- C2: each loop iteration of performSplit appends the player to the
team at chooseTeamIndex, and that index points at the team whose current
total is strictly smallest, with ties broken by fewest members and then
by lowest index. -/
theorem assignOne_picks_lex_min_team (ts : List (List Player)) (p : Player)
    (h : ts ≠ []) :
    chooseTeamIndex ts < ts.length ∧
    assignOne ts p = ts.set (chooseTeamIndex ts)
      (ts.getD (chooseTeamIndex ts) [] ++ [p]) ∧
    ∀ j, j < ts.length → j ≠ chooseTeamIndex ts →
      teamTotal (ts.getD (chooseTeamIndex ts) []) < teamTotal (ts.getD j []) ∨
        (teamTotal (ts.getD (chooseTeamIndex ts) []) = teamTotal (ts.getD j []) ∧
          ((ts.getD (chooseTeamIndex ts) []).length < (ts.getD j []).length ∨
            ((ts.getD (chooseTeamIndex ts) []).length = (ts.getD j []).length ∧
              chooseTeamIndex ts < j))) := by
  obtain ⟨h1, h2⟩ := chooseTeamIndex_spec ts h
  exact ⟨h1, rfl, fun j hj hne => h2 j hj hne⟩

theorem assignOne_picks_lex_min_team_witness :
    chooseTeamIndex [[samplePlayer 1 (some 2)], [], [samplePlayer 2 (some 1)]] <
      3 ∧
    assignOne [[samplePlayer 1 (some 2)], [], [samplePlayer 2 (some 1)]]
        (samplePlayer 3 (some 4)) =
      [[samplePlayer 1 (some 2)], [samplePlayer 3 (some 4)],
        [samplePlayer 2 (some 1)]] := by
  have h := assignOne_picks_lex_min_team
    [[samplePlayer 1 (some 2)], [], [samplePlayer 2 (some 1)]]
    (samplePlayer 3 (some 4)) (by decide)
  refine ⟨h.1, ?_⟩
  rw [h.2.1]
  decide

/-! ## Claim C9 -/

/-- C9: the substitution of skill level 3 for an absent skill happens
only inside the effective-skill computation; performSplit returns every
player record with exactly the multiplicity and the stored skillLevel
field (including none) it had in the input, modifying no record. -/
theorem performSplit_never_writes_skill (shuffled : List Player) (k : Nat)
    (hk : 2 ≤ k) :
    (∀ p : Player, (performSplit shuffled k).flatten.count p = shuffled.count p) ∧
    ∀ p : Player, p.skillLevel = none → effSkill p = 3 := by
  constructor
  · intro p
    exact (performSplit_flatten_perm shuffled k (by omega)).count_eq p
  · intro p hp
    simp [effSkill, hp]

theorem performSplit_never_writes_skill_witness :
    (performSplit sampleRoster 2).flatten.count (samplePlayer 3 none) =
      sampleRoster.count (samplePlayer 3 none) :=
  (performSplit_never_writes_skill sampleRoster 2 (by decide)).1
    (samplePlayer 3 none)

/-! ## Claim C3 -/

theorem teamTotal_concat (t : List Player) (p : Player) :
    teamTotal (t ++ [p]) = teamTotal t + effSkill p := by
  unfold teamTotal
  rw [List.foldl_append]
  rfl

theorem getD_mem_of_lt (ts : List (List Player)) (i : Nat) (h : i < ts.length) :
    ts.getD i [] ∈ ts := by
  rw [List.getD_eq_getElem?_getD, List.getElem?_eq_getElem h]
  exact List.getElem_mem h

/-- When every assigned player carries the same positive skill s and the
team list satisfies the invariant (each total is s times the size; sizes
differ by at most one), the greedy loop keeps sizes within one of each
other. -/
theorem foldl_assignOne_balanced (s : Int) (hs : 0 < s) (ps : List Player)
    (ts : List (List Player)) (hps : ∀ p ∈ ps, p.skillLevel = some s)
    (hne : ts ≠ [])
    (htot : ∀ t ∈ ts, teamTotal t = s * (t.length : Int))
    (hbal : ∀ t1 ∈ ts, ∀ t2 ∈ ts, t1.length ≤ t2.length + 1) :
    ∀ t1 ∈ ps.foldl assignOne ts, ∀ t2 ∈ ps.foldl assignOne ts,
      t1.length ≤ t2.length + 1 := by
  induction ps generalizing ts with
  | nil => simpa using hbal
  | cons p ps ih =>
    simp only [List.foldl_cons]
    obtain ⟨hilt, hmin⟩ := chooseTeamIndex_spec ts hne
    have hpskill : p.skillLevel = some s := hps p (List.mem_cons_self p ps)
    have htmem : ts.getD (chooseTeamIndex ts) [] ∈ ts := getD_mem_of_lt ts _ hilt
    have hminlen : ∀ u ∈ ts,
        (ts.getD (chooseTeamIndex ts) []).length ≤ u.length := by
      intro u hu
      obtain ⟨j, hj, hju⟩ := List.mem_iff_getElem.mp hu
      have hgu : ts.getD j [] = u := by
        rw [List.getD_eq_getElem?_getD, List.getElem?_eq_getElem hj]
        exact hju
      by_cases hji : j = chooseTeamIndex ts
      · rw [← hgu, hji]
      · have hkey := hmin j hj hji
        rw [hgu] at hkey
        have h1 := htot _ htmem
        have h2 := htot u hu
        rcases hkey with hlt | ⟨heq, hc⟩
        · rw [h1, h2] at hlt
          have h3 : ((ts.getD (chooseTeamIndex ts) []).length : Int) < u.length :=
            (mul_lt_mul_left hs).mp hlt
          exact_mod_cast le_of_lt h3
        · rcases hc with hc | ⟨hc, _⟩
          · exact le_of_lt hc
          · exact le_of_eq hc
    have heff : effSkill p = s := by
      simp [effSkill, hpskill]
    have hset : assignOne ts p = ts.set (chooseTeamIndex ts)
        (ts.getD (chooseTeamIndex ts) [] ++ [p]) := rfl
    refine ih (assignOne ts p) (fun q hq => hps q (List.mem_cons_of_mem p hq))
      (assignOne_ne_nil ts p hne) ?_ ?_
    · intro t ht
      rw [hset] at ht
      rcases List.mem_or_eq_of_mem_set ht with h1 | h1
      · exact htot t h1
      · subst h1
        rw [teamTotal_concat, htot _ htmem, heff, List.length_append,
          List.length_singleton]
        push_cast
        ring
    · intro t1 h1 t2 h2
      rw [hset] at h1 h2
      rcases List.mem_or_eq_of_mem_set h1 with hm1 | hm1 <;>
        rcases List.mem_or_eq_of_mem_set h2 with hm2 | hm2
      · exact hbal t1 hm1 t2 hm2
      · subst hm2
        have h3 := hbal t1 hm1 _ htmem
        rw [List.length_append, List.length_singleton]
        omega
      · subst hm1
        have h3 := hminlen t2 hm2
        rw [List.length_append, List.length_singleton]
        omega
      · subst hm1
        subst hm2
        omega

/-- C3: when every player has an assigned skill level and all levels are
equal (a value in 1..5), the k teams returned by performSplit have sizes
differing by at most 1. -/
theorem performSplit_equal_skills_balanced (shuffled : List Player) (k : Nat)
    (s : Int) (hs1 : 1 ≤ s) (hs5 : s ≤ 5)
    (hall : ∀ p ∈ shuffled, p.skillLevel = some s) (hk : 2 ≤ k) :
    ∀ t1 ∈ performSplit shuffled k, ∀ t2 ∈ performSplit shuffled k,
      t1.length ≤ t2.length + 1 := by
  unfold performSplit
  apply foldl_assignOne_balanced s (by omega)
  · intro p hp
    exact hall p (List.mem_mergeSort.mp hp)
  · exact replicate_nil_ne_nil k (by omega)
  · intro t ht
    rw [List.eq_of_mem_replicate ht]
    simp [teamTotal]
  · intro t1 h1 t2 h2
    rw [List.eq_of_mem_replicate h1, List.eq_of_mem_replicate h2]
    simp

/-- Sample roster in which all players share skill level 2. -/
def sampleEqualRoster : List Player :=
  [samplePlayer 1 (some 2), samplePlayer 2 (some 2), samplePlayer 3 (some 2)]

theorem performSplit_equal_skills_balanced_witness :
    ((performSplit sampleEqualRoster 2).getD 0 []).length ≤
      ((performSplit sampleEqualRoster 2).getD 1 []).length + 1 :=
  performSplit_equal_skills_balanced sampleEqualRoster 2 2 (by decide) (by decide)
    (by decide) (by decide) ((performSplit sampleEqualRoster 2).getD 0 [])
    (getD_mem_of_lt _ 0 (by rw [performSplit_length]; omega))
    ((performSplit sampleEqualRoster 2).getD 1 [])
    (getD_mem_of_lt _ 1 (by rw [performSplit_length]; omega))

/-! ## Claim C4 -/

/-- C4 counterexample: the status deriver is not sticky for cancelled.
At joined count 5 and capacity 5 a cancelled game is recomputed to full,
because updateGameStatus checks only for the locked status. -/
theorem deriveStatus_cancelled_overwritten :
    deriveStatus "cancelled" 5 5 = "full" ∧
      deriveStatus "cancelled" 5 5 ≠ "cancelled" := by
  constructor
  · rfl
  · decide

/-- C4 amended: only locked is sticky; a cancelled status is overwritten
by the automatic recomputation, becoming full when the joined count has
reached capacity and open otherwise. -/
theorem deriveStatus_locked_sticky_cancelled_not (count capacity : Nat) :
    deriveStatus "locked" count capacity = "locked" ∧
      deriveStatus "cancelled" count capacity =
        (if capacity ≤ count then "full" else "open") := by
  constructor
  · rfl
  · rw [deriveStatus, if_neg (by decide)]

/-! ## Claim C5 -/

/-- C5: when the current status is neither locked nor cancelled the
deriver returns full exactly when the joined count has reached capacity
and open otherwise; in particular open flips to full at capacity and
full flips back to open at capacity minus one (capacity positive). -/
theorem deriveStatus_full_open (st : String) (count capacity : Nat) :
    (st ≠ "locked" → st ≠ "cancelled" →
      deriveStatus st count capacity =
        (if capacity ≤ count then "full" else "open")) ∧
    deriveStatus "open" capacity capacity = "full" ∧
    (1 ≤ capacity → deriveStatus "full" (capacity - 1) capacity = "open") := by
  refine ⟨?_, ?_, ?_⟩
  · intro h1 _
    rw [deriveStatus, if_neg h1]
  · rw [deriveStatus, if_neg (by decide), if_pos (le_refl capacity)]
  · intro hcap
    rw [deriveStatus, if_neg (by decide), if_neg (by omega)]

theorem deriveStatus_full_open_witness :
    deriveStatus "open" 2 3 = (if 3 ≤ 2 then "full" else "open") ∧
      deriveStatus "full" 2 3 = "open" :=
  ⟨(deriveStatus_full_open "open" 2 3).1 (by decide) (by decide),
    (deriveStatus_full_open "full" 2 3).2.2 (by decide)⟩

/-! ## Claim C6 -/

/-- C6 counterexample: the default team count is computed from the
joined roster size, not from the game capacity.  For sport 5v5 with
capacity 20 and 10 joined players the claim predicts 20 / 5 = 4 teams
but the code computes max(2, 10 / 5) = 2. -/
theorem defaultTeamCount_not_capacity_based :
    defaultTeamCount "5v5" 20 10 = 2 ∧ 20 / 5 = 4 ∧ (2 : Nat) ≠ 4 := by
  refine ⟨rfl, rfl, by decide⟩

/-- C6 amended: with P the players-per-team value (the first NvN match
of the sport label when present and positive, else the first size in
11,7,6,5,4,3 dividing capacity into at least 2 teams, else
max(2, capacity / 2)), the default team count is max(2, rosterSize / P);
it is always at least 2. -/
theorem defaultTeamCount_spec (sport : String) (capacity rosterSize : Nat) :
    2 ≤ defaultTeamCount sport capacity rosterSize ∧
    (∀ n, firstNvN sport.toList = some n → 0 < n →
      defaultTeamCount sport capacity rosterSize = max 2 (rosterSize / n)) ∧
    (firstNvN sport.toList = none →
      ∀ size, commonTeamSizes.find? (fun size =>
          capacity % size = 0 && 2 ≤ capacity / size) = some size →
        defaultTeamCount sport capacity rosterSize = max 2 (rosterSize / size)) ∧
    (firstNvN sport.toList = none →
      commonTeamSizes.find? (fun size =>
          capacity % size = 0 && 2 ≤ capacity / size) = none →
      defaultTeamCount sport capacity rosterSize =
        max 2 (rosterSize / max 2 (capacity / 2))) := by
  refine ⟨?_, ?_, ?_, ?_⟩
  · by_cases h : 0 < extractPlayersPerTeam sport capacity
    · simp [defaultTeamCount, h]
    · simp [defaultTeamCount, h]
  · intro n hn hpos
    unfold defaultTeamCount extractPlayersPerTeam
    rw [hn]
    simp only []
    rw [if_pos hpos]
  · intro hnone size hfind
    have hmem : size ∈ commonTeamSizes := List.mem_of_find?_eq_some hfind
    have hpos : 0 < size := by
      simp only [commonTeamSizes, List.mem_cons, List.not_mem_nil, or_false] at hmem
      rcases hmem with rfl | rfl | rfl | rfl | rfl | rfl <;> decide
    unfold defaultTeamCount extractPlayersPerTeam
    rw [hnone, hfind]
    simp only []
    rw [if_pos hpos]
  · intro hnone hfind
    unfold defaultTeamCount extractPlayersPerTeam
    rw [hnone, hfind]
    simp only []
    rw [if_pos (by omega)]

theorem defaultTeamCount_spec_witness :
    defaultTeamCount "5v5" 20 20 = max 2 (20 / 5) :=
  (defaultTeamCount_spec "5v5" 20 20).2.1 5 (by decide) (by decide)

/-! ## Helper lemmas about the backend store -/

theorem getJoin_setSkillLevel (db : DB) (g p : String) (sl : Option Int)
    (j : JoinRec) (h : getJoin db g p = some j) :
    getJoin (setSkillLevel db g p sl) g p = some { j with skillLevel := sl } := by
  unfold getJoin at h ⊢
  have hpj := List.find?_some h
  simp only [Bool.and_eq_true, decide_eq_true_eq] at hpj
  unfold setSkillLevel
  rw [List.find?_map]
  have hfp : ((fun r : JoinRec => decide (r.gameId = g) && decide (r.playerId = p)) ∘
      (fun r : JoinRec =>
        if r.gameId = g && r.playerId = p then { r with skillLevel := sl } else r)) =
      (fun r : JoinRec => decide (r.gameId = g) && decide (r.playerId = p)) := by
    funext r
    by_cases hc : (decide (r.gameId = g) && decide (r.playerId = p)) = true
    · simp only [Function.comp_apply, if_pos hc]
    · simp only [Function.comp_apply, if_neg hc]
  rw [hfp, h]
  simp [hpj.1, hpj.2]

theorem getGame_setGameStatus (db : DB) (g st : String)
    (game : GameRec) (h : getGame db g = some game) :
    getGame (setGameStatus db g st) g = some { game with status := st } := by
  unfold getGame at h
  obtain ⟨e, hfind, he2⟩ := Option.map_eq_some'.mp h
  have he1b := List.find?_some hfind
  have he1 : e.1 = g := by simpa using he1b
  unfold getGame setGameStatus
  rw [List.find?_map]
  have hfp : ((fun x : String × GameRec => decide (x.1 = g)) ∘
      (fun x : String × GameRec =>
        if x.1 = g then (x.1, { x.2 with status := st }) else x)) =
      (fun x : String × GameRec => decide (x.1 = g)) := by
    funext x
    by_cases hc : x.1 = g
    · simp [hc]
    · simp [hc]
  rw [hfp, hfind]
  simp [he1, he2]

theorem getPlayerCount_append_join (db : DB) (g : String) (j : JoinRec)
    (hj : j.gameId = g) (P : List PlayerRec) :
    getPlayerCount { games := db.games, players := P, joins := db.joins ++ [j] } g =
      getPlayerCount db g + 1 := by
  unfold getPlayerCount
  simp [List.filter_append, hj]

/-- The outcome of the skill-update handler once the game and the join
both exist: null and in-range values are stored, other values are
rejected. -/
theorem updateSkill_eq (db : DB) (g p : String) (sl : Option Int)
    (game : GameRec) (j : JoinRec)
    (hg : getGame db g = some game) (hj : getJoin db g p = some j) :
    updateSkill db g p sl =
      match sl with
      | none => .ok (setSkillLevel db g p none)
      | some v =>
        if 1 ≤ v ∧ v ≤ 5 then .ok (setSkillLevel db g p (some v))
        else .error .invalidRange := by
  unfold updateSkill
  rw [hg, hj]

/-! ## Claim C8 -/

/-- C8: the skill-update handler returns NotFound when the (game,
player) join is missing, rejects exactly the present values outside
1..5, always accepts null (clearing the stored level), and on success
stores exactly the supplied value. -/
theorem updateSkill_spec (db : DB) (g p : String) (sl : Option Int) :
    (getJoin db g p = none → updateSkill db g p sl = .error SkillError.notFound) ∧
    (getGame db g ≠ none → getJoin db g p ≠ none →
      (updateSkill db g p sl = .error SkillError.invalidRange ↔
        ∃ v, sl = some v ∧ ¬(1 ≤ v ∧ v ≤ 5))) ∧
    (getGame db g ≠ none → ∀ j, getJoin db g p = some j → sl = none →
      updateSkill db g p sl = .ok (setSkillLevel db g p none) ∧
      getJoin (setSkillLevel db g p none) g p = some { j with skillLevel := none }) ∧
    (getGame db g ≠ none → ∀ j, getJoin db g p = some j → ∀ v, sl = some v →
      1 ≤ v → v ≤ 5 →
      updateSkill db g p sl = .ok (setSkillLevel db g p (some v)) ∧
      getJoin (setSkillLevel db g p (some v)) g p =
        some { j with skillLevel := some v }) := by
  refine ⟨?_, ?_, ?_, ?_⟩
  · intro hj
    unfold updateSkill
    rcases hgame : getGame db g with _ | game
    · rfl
    · rw [hj]
  · intro hgame hjoin
    rcases hg : getGame db g with _ | game
    · exact absurd hg hgame
    rcases hj : getJoin db g p with _ | j
    · exact absurd hj hjoin
    rcases sl with _ | v
    · have heq : updateSkill db g p none = .ok (setSkillLevel db g p none) :=
        updateSkill_eq db g p none game j hg hj
      rw [heq]
      constructor
      · intro hc; exact Except.noConfusion hc
      · rintro ⟨v, hv, _⟩; exact Option.noConfusion hv
    · by_cases hr : 1 ≤ v ∧ v ≤ 5
      · have heq : updateSkill db g p (some v) =
            .ok (setSkillLevel db g p (some v)) := by
          rw [updateSkill_eq db g p (some v) game j hg hj]
          exact if_pos hr
        rw [heq]
        constructor
        · intro hc; exact Except.noConfusion hc
        · rintro ⟨w, hw, hnr⟩
          injection hw with hw
          subst hw
          exact absurd hr hnr
      · have heq : updateSkill db g p (some v) = .error SkillError.invalidRange := by
          rw [updateSkill_eq db g p (some v) game j hg hj]
          exact if_neg hr
        rw [heq]
        exact ⟨fun _ => ⟨v, rfl, hr⟩, fun _ => rfl⟩
  · intro hgame j hj hsl
    subst hsl
    rcases hg : getGame db g with _ | game
    · exact absurd hg hgame
    exact ⟨updateSkill_eq db g p none game j hg hj,
      getJoin_setSkillLevel db g p none j hj⟩

  · intro hgame j hj v hsl h1 h5
    subst hsl
    rcases hg : getGame db g with _ | game
    · exact absurd hg hgame
    refine ⟨?_, getJoin_setSkillLevel db g p (some v) j hj⟩
    rw [updateSkill_eq db g p (some v) game j hg hj]
    exact if_pos ⟨h1, h5⟩

/-- A one-game, one-join database used to instantiate the handler
theorems. -/
def sampleDB : DB :=
  { games := [("g1", { sport := "Football", maxPlayers := 10, status := "open" })],
    players := [{ id := "p1", name := "Ann", phone := "0500000001" }],
    joins := [{ gameId := "g1", playerId := "p1", timestamp := "t0",
                skillLevel := none }] }

theorem updateSkill_spec_witness :
    updateSkill sampleDB "g1" "p1" (some 4) =
        .ok (setSkillLevel sampleDB "g1" "p1" (some 4)) ∧
      getJoin (setSkillLevel sampleDB "g1" "p1" (some 4)) "g1" "p1" =
        some { gameId := "g1", playerId := "p1", timestamp := "t0",
               skillLevel := some 4 } :=
  (updateSkill_spec sampleDB "g1" "p1" (some 4)).2.2.2 (by decide)
    { gameId := "g1", playerId := "p1", timestamp := "t0", skillLevel := none }
    (by decide) 4 rfl (by decide) (by decide)

/-! ## More store lemmas for the join handler -/

theorem getGame_insertPlayerAndJoin (db : DB) (g n ph pid t g2 : String) :
    getGame (insertPlayerAndJoin db g n ph pid t) g2 = getGame db g2 := rfl

theorem phoneInGame_setGameStatus (db : DB) (g st g2 ph : String) :
    phoneInGame (setGameStatus db g st) g2 ph = phoneInGame db g2 ph := rfl

theorem getPlayerCount_insertPlayerAndJoin (db : DB) (g n ph pid t : String) :
    getPlayerCount (insertPlayerAndJoin db g n ph pid t) g =
      getPlayerCount db g + 1 := by
  unfold getPlayerCount insertPlayerAndJoin
  simp [List.filter_append]

theorem phoneInGame_insert_self (db : DB) (g n ph pid t : String) :
    phoneInGame (insertPlayerAndJoin db g n ph pid t) g (jsTrim ph) = true := by
  unfold phoneInGame insertPlayerAndJoin
  simp

/-! ## Claim C10 -/

/-- C10: a join on a cancelled game is not rejected for its status (only
locked blocks joining): with valid name and phone, no duplicate contact
and a free spot, the join succeeds, and the automatic recomputation then
overwrites cancelled with full (count reached capacity) or open. -/
theorem joinGame_succeeds_on_cancelled (db : DB)
    (gameId name phone pid now : String) (game : GameRec)
    (hg : getGame db gameId = some game)
    (hcancel : game.status = "cancelled")
    (hn : jsTrim name ≠ "") (hp : jsTrim phone ≠ "") (hd : digitCount phone = 10)
    (hdup : phoneInGame db gameId (jsTrim phone) = false)
    (hroom : getPlayerCount db gameId < game.maxPlayers) :
    ∃ db1, joinGame db gameId name phone pid now = .ok db1 ∧
      getGame db1 gameId =
        some { game with
               status := if game.maxPlayers ≤ getPlayerCount db gameId + 1
                         then "full" else "open" } ∧
      ∀ g1, getGame db1 gameId = some g1 → g1.status ≠ "cancelled" := by
  have h4 : ¬(game.status = "locked") := by rw [hcancel]; decide
  have h3 : ¬(digitCount phone ≠ 10) := by simp [hd]
  have h5 : ¬(phoneInGame db gameId (jsTrim phone) = true) := by simp [hdup]
  have h6 : ¬(game.maxPlayers ≤ getPlayerCount db gameId) := not_le.mpr hroom
  have hrun : joinGame db gameId name phone pid now =
      .ok (updateGameStatus (insertPlayerAndJoin db gameId name phone pid now)
        gameId) := by
    unfold joinGame
    rw [if_neg hn, if_neg hp, if_neg h3]
    simp only [hg]
    rw [if_neg h4, if_neg h5, if_neg h6]
  have hgI : getGame (insertPlayerAndJoin db gameId name phone pid now) gameId =
      some game := hg
  have hcnt : getPlayerCount (insertPlayerAndJoin db gameId name phone pid now)
      gameId = getPlayerCount db gameId + 1 :=
    getPlayerCount_insertPlayerAndJoin db gameId name phone pid now
  have hupd : updateGameStatus (insertPlayerAndJoin db gameId name phone pid now)
      gameId = setGameStatus (insertPlayerAndJoin db gameId name phone pid now)
        gameId
        (if game.maxPlayers ≤ getPlayerCount db gameId + 1 then "full" else "open") := by
    unfold updateGameStatus
    simp only [hgI]
    rw [if_neg h4, hcnt]
  refine ⟨_, hrun, ?_, ?_⟩
  · rw [hupd]
    exact getGame_setGameStatus _ gameId _ game hgI
  · intro g1 hg1
    rw [hupd, getGame_setGameStatus _ gameId _ game hgI] at hg1
    injection hg1 with hg1
    rw [← hg1]
    show (if game.maxPlayers ≤ getPlayerCount db gameId + 1
      then "full" else "open") ≠ "cancelled"
    split <;> decide

/-- A database holding one cancelled game with a free spot. -/
def sampleCancelledDB : DB :=
  { games := [("g1", { sport := "Football", maxPlayers := 10,
                       status := "cancelled" })],
    players := [],
    joins := [] }

/-! ## Claim C7 -/

/-- C7: after a successful join, an immediate second join attempt with
the same phone (and any valid name) fails with the duplicate-contact
conflict, and the failed attempt leaves the database, hence the set of
joins and the roster count, unchanged. -/
theorem joinGame_second_attempt_conflict (db db1 : DB)
    (gameId n1 phone pid1 t1 n2 pid2 t2 : String)
    (hok : joinGame db gameId n1 phone pid1 t1 = .ok db1)
    (hn2 : jsTrim n2 ≠ "") :
    joinGame db1 gameId n2 phone pid2 t2 = .error JoinError.duplicateContact ∧
      joinResultState db1 gameId n2 phone pid2 t2 = db1 := by
  unfold joinGame at hok
  by_cases h1 : jsTrim n1 = ""
  · rw [if_pos h1] at hok; exact Except.noConfusion hok
  rw [if_neg h1] at hok
  by_cases h2 : jsTrim phone = ""
  · rw [if_pos h2] at hok; exact Except.noConfusion hok
  rw [if_neg h2] at hok
  by_cases h3 : digitCount phone ≠ 10
  · rw [if_pos h3] at hok; exact Except.noConfusion hok
  rw [if_neg h3] at hok
  rcases hg : getGame db gameId with _ | game
  · simp only [hg] at hok; exact Except.noConfusion hok
  simp only [hg] at hok
  by_cases h4 : game.status = "locked"
  · rw [if_pos h4] at hok; exact Except.noConfusion hok
  rw [if_neg h4] at hok
  by_cases h5 : phoneInGame db gameId (jsTrim phone) = true
  · rw [if_pos h5] at hok; exact Except.noConfusion hok
  rw [if_neg h5] at hok
  by_cases h6 : game.maxPlayers ≤ getPlayerCount db gameId
  · rw [if_pos h6] at hok; exact Except.noConfusion hok
  rw [if_neg h6] at hok
  injection hok with hok
  -- the first join succeeded; name the intermediate inserted database
  obtain ⟨st1, hupd, hstne⟩ : ∃ st1,
      updateGameStatus (insertPlayerAndJoin db gameId n1 phone pid1 t1) gameId =
        setGameStatus (insertPlayerAndJoin db gameId n1 phone pid1 t1) gameId st1 ∧
      st1 ≠ "locked" := by
    have hgI : getGame (insertPlayerAndJoin db gameId n1 phone pid1 t1) gameId =
        some game := hg
    refine ⟨if game.maxPlayers ≤
        getPlayerCount (insertPlayerAndJoin db gameId n1 phone pid1 t1) gameId
      then "full" else "open", ?_, ?_⟩
    · unfold updateGameStatus
      simp only [hgI]
      rw [if_neg h4]
    · split <;> decide
  rw [hupd] at hok
  have hgame1 : getGame db1 gameId = some { game with status := st1 } := by
    rw [← hok]
    exact getGame_setGameStatus _ gameId st1 game hg
  have hdup1 : phoneInGame db1 gameId (jsTrim phone) = true := by
    rw [← hok, phoneInGame_setGameStatus]
    exact phoneInGame_insert_self db gameId n1 phone pid1 t1
  have hfinal : joinGame db1 gameId n2 phone pid2 t2 =
      .error JoinError.duplicateContact := by
    unfold joinGame
    rw [if_neg hn2, if_neg h2, if_neg h3]
    simp only [hgame1]
    rw [if_neg (show ¬({ game with status := st1 } : GameRec).status = "locked"
      from hstne)]
    rw [if_pos hdup1]
  refine ⟨hfinal, ?_⟩
  unfold joinResultState
  rw [hfinal]

/-- A database holding one open game with a free spot and no joins. -/
def sampleOpenDB : DB :=
  { games := [("g1", { sport := "Football", maxPlayers := 10,
                       status := "open" })],
    players := [],
    joins := [] }

theorem joinGame_second_attempt_conflict_witness :
    joinGame (joinResultState sampleOpenDB "g1" "Ann" "0500000001" "p1" "t0")
        "g1" "Bob" "0500000001" "p2" "t1" =
      .error JoinError.duplicateContact :=
  (joinGame_second_attempt_conflict sampleOpenDB
    (joinResultState sampleOpenDB "g1" "Ann" "0500000001" "p1" "t0")
    "g1" "Ann" "0500000001" "p1" "t0" "Bob" "p2" "t1" (by rfl) (by decide)).1

theorem joinGame_succeeds_on_cancelled_witness :
    ∃ db1, joinGame sampleCancelledDB "g1" "Ann" "0500000001" "p1" "t0" = .ok db1 ∧
      getGame db1 "g1" =
        some { sport := "Football", maxPlayers := 10,
               status := if 10 ≤ getPlayerCount sampleCancelledDB "g1" + 1
                         then "full" else "open" } ∧
      ∀ g1, getGame db1 "g1" = some g1 → g1.status ≠ "cancelled" :=
  joinGame_succeeds_on_cancelled sampleCancelledDB "g1" "Ann" "0500000001" "p1"
    "t0" { sport := "Football", maxPlayers := 10, status := "cancelled" }
    (by decide) rfl (by decide) (by decide) (by decide) (by decide) (by decide)

end IMIN

